import Mathlib

/-!
Shallow embedding of the in-memory storage backend
(`internal/backend/memory.go`) of fake-gcs-server, and proofs of the
specification claims about it.

The Go code stores buckets in a map guarded by a lock; each public
operation is a bounded critical section, so the sequential semantics is
modelled directly: a store is a map from bucket name to bucket state and
every operation is a pure state transformer.  Calls to `time.Now()` are
modelled by an explicit `Clock` argument carrying the three ways the code
consumes the current time (microsecond integer for generations, RFC3339
text for deletion stamps, and a creation timestamp for buckets).
-/

namespace Backend

/-- Modelled from the spec: the `Object` record (`BucketName`, `Name`,
`Generation`, the `deleted` soft-delete marker, and an opaque payload
field) lives outside the file under verification; spec section 3 fixes
its identity-relevant fields. -/
structure Object where
  BucketName : String
  Name : String
  Generation : Int
  Deleted : String
  Content : String
deriving DecidableEq, Repr

/-- Modelled from the spec: full identity is the triple
(bucket, name, generation). -/
def Object.ID (o : Object) : String × String × Int :=
  (o.BucketName, o.Name, o.Generation)

/-- Modelled from the spec: logical identity is the pair (bucket, name),
generation ignored. -/
def Object.IDNoGen (o : Object) : String × String :=
  (o.BucketName, o.Name)

/-- Modelled from the spec: the `Bucket` record interchanged with callers
(name, versioning flag, creation time). -/
structure Bucket where
  Name : String
  VersioningEnabled : Bool
  TimeCreated : Int
deriving DecidableEq, Repr

/-- `bucketInMemory` from memory.go: the embedded `Bucket` plus the
active/archived partition of object versions. -/
structure bucketInMemory where
  bucket : Bucket
  activeObjects : List Object
  archivedObjects : List Object
deriving DecidableEq, Repr

/-- Accessor matching Go's promoted embedded field `bm.VersioningEnabled`. -/
def bucketInMemory.VersioningEnabled (bm : bucketInMemory) : Bool :=
  bm.bucket.VersioningEnabled

/-- One observation of `time.Now()`, in the three forms the code uses. -/
structure Clock where
  micro : Int
  rfc : String
  time : Int
deriving DecidableEq, Repr

/-- A clock reading taken from a real wall clock: `UnixNano()/1000` of the
current time is non-zero and `Format(time.RFC3339)` is non-empty. -/
def ValidClock (c : Clock) : Bool :=
  c.micro != 0 && c.rfc != ""

/-- Go zero value of `Object` (all fields zero / empty). -/
def zeroObject : Object :=
  ⟨"", "", 0, "", ""⟩

/-- Go zero value of `bucketInMemory`. -/
def zeroBucket : bucketInMemory :=
  ⟨⟨"", false, 0⟩, [], []⟩

/-- `newBucketInMemory` from memory.go. -/
def newBucketInMemory (clk : Clock) (name : String) (versioningEnabled : Bool) :
    bucketInMemory :=
  ⟨⟨name, versioningEnabled, clk.time⟩, [], []⟩

/-- The identity comparison performed inside `findObject`'s loop. -/
def objMatch (matchGeneration : Bool) (obj o : Object) : Bool :=
  if matchGeneration then decide (obj.ID = o.ID) else decide (obj.IDNoGen = o.IDNoGen)

/-- `findObject` from memory.go: index of the first entry of `objectList`
matching `obj` (full identity when `matchGeneration`, logical identity
otherwise); Go's `-1` result is modelled as `none`. -/
def findObject (obj : Object) (objectList : List Object) (matchGeneration : Bool) :
    Option Nat :=
  objectList.findIdx? (fun o => objMatch matchGeneration obj o)

/-- `getNewGenerationIfZero` from memory.go; `time.Now().UnixNano()/1000`
is the clock's `micro` field. -/
def getNewGenerationIfZero (generation : Int) (clk : Clock) : Int :=
  if generation = 0 then clk.micro else generation

/-- The generation resolution performed at the top of `addObject`. -/
def resolveGen (clk : Clock) (obj : Object) : Object :=
  { obj with Generation := getNewGenerationIfZero obj.Generation clk }

/-- `obj.Deleted = time.Now().Format(time.RFC3339)`. -/
def stampDeleted (clk : Clock) (o : Object) : Object :=
  { o with Deleted := clk.rfc }

/-- `addObject` from memory.go. In the versioned-replace branch Go stamps
the stored entry's `Deleted` field, copies it to the archive, then
overwrites the slot with the new object; the net effect on the two lists
is written out directly. -/
def addObject (clk : Clock) (bm : bucketInMemory) (obj0 : Object) : bucketInMemory :=
  let obj := resolveGen clk obj0
  match findObject obj bm.activeObjects false with
  | some index =>
      if bm.VersioningEnabled then
        { bm with
          activeObjects := bm.activeObjects.set index obj,
          archivedObjects :=
            bm.archivedObjects ++ [stampDeleted clk (bm.activeObjects.getD index zeroObject)] }
      else
        { bm with activeObjects := bm.activeObjects.set index obj }
  | none => { bm with activeObjects := bm.activeObjects ++ [obj] }

/-- `cpToArchive` from memory.go. -/
def cpToArchive (bm : bucketInMemory) (obj : Object) : bucketInMemory :=
  { bm with archivedObjects := bm.archivedObjects ++ [obj] }

/-- `deleteFromObjectList` from memory.go: swap-with-last then truncate.
Go indexes `objects[index]` without checking the lookup succeeded; a
failed lookup (index `-1`) would be an out-of-range access, modelled as
`none`. -/
def deleteFromObjectList (bm : bucketInMemory) (obj : Object) (active : Bool) :
    Option bucketInMemory :=
  let objects := if active then bm.activeObjects else bm.archivedObjects
  match findObject obj objects (!active) with
  | none => none
  | some index =>
      let objects' :=
        (objects.set index (objects.getD (objects.length - 1) zeroObject)).take
          (objects.length - 1)
      some (if active then { bm with activeObjects := objects' }
            else { bm with archivedObjects := objects' })

/-- `mvToArchive` from memory.go. -/
def mvToArchive (bm : bucketInMemory) (obj : Object) : Option bucketInMemory :=
  deleteFromObjectList (cpToArchive bm obj) obj true

/-- The swap-with-last-and-truncate removal applied at index `i`, as
performed by `deleteFromObjectList`. -/
def swapRemove (l : List Object) (i : Nat) : List Object :=
  (l.set i (l.getD (l.length - 1) zeroObject)).take (l.length - 1)

/-- `deleteObject` from memory.go (bucket level). -/
def deleteObject (clk : Clock) (bm : bucketInMemory) (obj : Object)
    (matchGeneration : Bool) : Option bucketInMemory :=
  match findObject obj bm.activeObjects matchGeneration with
  | none => some bm
  | some _ =>
      if bm.VersioningEnabled then
        mvToArchive bm (stampDeleted clk obj)
      else
        deleteFromObjectList bm obj true

/-- The error kinds the engine returns, distinguished the way the Go error
messages distinguish them. -/
inductive Err where
  | bucketNotFound (name : String)
  | objectNotFound
  | conflict (name : String)
deriving DecidableEq, Repr

/-- The bucket map of `StorageMemory`. -/
def StorageMemory := String → Option bucketInMemory

/-- The empty store (`make(map[string]bucketInMemory)`). -/
def emptyStorage : StorageMemory := fun _ => none

/-- `getBucketInMemory` from memory.go (map lookup; Go's error return is
the `none` case). -/
def getBucketInMemory (s : StorageMemory) (name : String) : Option bucketInMemory :=
  s name

/-- `s.buckets[name] = bm`. -/
def setBucket (s : StorageMemory) (name : String) (bm : bucketInMemory) :
    StorageMemory :=
  fun k => if k = name then some bm else s k

/-- `CreateBucket` from memory.go. -/
def CreateBucket (clk : Clock) (s : StorageMemory) (name : String)
    (versioningEnabled : Bool) : Except Err StorageMemory :=
  match getBucketInMemory s name with
  | some bucket =>
      if bucket.VersioningEnabled ≠ versioningEnabled then
        .error (.conflict name)
      else
        .ok s
  | none => .ok (setBucket s name (newBucketInMemory clk name versioningEnabled))

/-- `CreateObject` from memory.go: resolve or implicitly create the
bucket (versioning disabled), add the object, write the bucket back. -/
def CreateObject (clk : Clock) (s : StorageMemory) (obj : Object) :
    Except Err StorageMemory :=
  let bucket :=
    match getBucketInMemory s obj.BucketName with
    | some b => b
    | none => newBucketInMemory clk obj.BucketName false
  .ok (setBucket s obj.BucketName (addObject clk bucket obj))

/-- `ListObjects` from memory.go. -/
def ListObjects (s : StorageMemory) (bucketName : String) (versions : Bool) :
    Except Err (List Object) :=
  match getBucketInMemory s bucketName with
  | none => .error (.bucketNotFound bucketName)
  | some bm =>
      if versions then .ok (bm.activeObjects ++ bm.archivedObjects)
      else .ok bm.activeObjects

/-- `GetObjectWithGeneration` from memory.go. -/
def GetObjectWithGeneration (s : StorageMemory) (bucketName objectName : String)
    (generation : Int) : Except Err Object :=
  match getBucketInMemory s bucketName with
  | none => .error (.bucketNotFound bucketName)
  | some bm =>
      let matchGeneration : Bool := decide (generation ≠ 0)
      let obj : Object :=
        { BucketName := bucketName, Name := objectName,
          Generation := if generation = 0 then 0 else generation,
          Deleted := "", Content := "" }
      let listToConsider :=
        if generation = 0 then bm.activeObjects
        else bm.activeObjects ++ bm.archivedObjects
      match findObject obj listToConsider matchGeneration with
      | none => .error .objectNotFound
      | some index => .ok (listToConsider.getD index zeroObject)

/-- `GetObject` from memory.go. -/
def GetObject (s : StorageMemory) (bucketName objectName : String) :
    Except Err Object :=
  GetObjectWithGeneration s bucketName objectName 0

/-- `DeleteObject` from memory.go (engine level): resolve the current
active object, re-resolve the bucket, delete with full-identity matching.
`none` marks the (unreachable) out-of-range access inside
`deleteFromObjectList`. -/
def DeleteObject (clk : Clock) (s : StorageMemory) (bucketName objectName : String) :
    Option (Except Err StorageMemory) :=
  match GetObject s bucketName objectName with
  | .error e => some (.error e)
  | .ok obj =>
      match getBucketInMemory s bucketName with
      | none => some (.error (.bucketNotFound bucketName))
      | some bm =>
          (deleteObject clk bm obj true).map fun bm' => .ok (setBucket s bucketName bm')

/-- One iteration of the seeding loop of `NewStorageMemory`: `CreateBucket`
(error discarded), look the bucket up (Go's zero value if absent),
`addObject`, write back. -/
def seedStep (s : StorageMemory) (co : Clock × Object) : StorageMemory :=
  let s1 :=
    match CreateBucket co.1 s co.2.BucketName false with
    | .ok s' => s'
    | .error _ => s
  let bucket := (getBucketInMemory s1 co.2.BucketName).getD zeroBucket
  setBucket s1 co.2.BucketName (addObject co.1 bucket co.2)

/-- `NewStorageMemory` from memory.go, the seeding constructor; each seeded
object comes with the clock observed during its iteration. -/
def NewStorageMemory (seed : List (Clock × Object)) : StorageMemory :=
  seed.foldl seedStep emptyStorage

/-- One public operation of the engine, carrying the clock it observes. -/
inductive Op where
  | createBucket (clk : Clock) (name : String) (versioning : Bool)
  | createObject (clk : Clock) (obj : Object)
  | delObject (clk : Clock) (bucketName objectName : String)
  | listBuckets
  | getBucket (name : String)
  | listObjects (name : String) (versions : Bool)
  | getObject (bucketName objectName : String)
  | getObjectWithGen (bucketName objectName : String) (generation : Int)
deriving DecidableEq, Repr

/-- The mutating operations observe a real wall clock; read operations
constrain nothing. -/
def OpValid : Op → Bool
  | .createBucket clk _ _ => ValidClock clk
  | .createObject clk _ => ValidClock clk
  | .delObject clk _ _ => ValidClock clk
  | _ => true

/-- State effect of one public operation.  A returned error leaves the
store unchanged; the read operations never modify it.  `none` propagates
the out-of-range access of `deleteFromObjectList`. -/
def applyOp (s : StorageMemory) : Op → Option StorageMemory
  | .createBucket clk n v =>
      match CreateBucket clk s n v with
      | .ok s' => some s'
      | .error _ => some s
  | .createObject clk obj =>
      match CreateObject clk s obj with
      | .ok s' => some s'
      | .error _ => some s
  | .delObject clk b o =>
      match DeleteObject clk s b o with
      | none => none
      | some (.ok s') => some s'
      | some (.error _) => some s
  | _ => some s

/-- Run a sequence of public operations. -/
def runOps (s : StorageMemory) : List Op → Option StorageMemory
  | [] => some s
  | op :: ops =>
      match applyOp s op with
      | none => none
      | some s' => runOps s' ops

/-- States reachable from a constructor-seeded store (the empty store is
`NewStorageMemory []`) by public operations under real wall clocks. -/
def Reachable (s : StorageMemory) : Prop :=
  ∃ seed ops,
    (∀ co ∈ seed, ValidClock co.1 = true) ∧
    (∀ op ∈ ops, OpValid op = true) ∧
    runOps (NewStorageMemory seed) ops = some s

/-- Invariant of a single bucket state: active logical identities are
distinct; archived entries carry a non-empty deletion stamp and, like
active entries, a non-zero generation; a versioning-disabled bucket never
accumulates an archive. -/
def bucketInv (bm : bucketInMemory) : Prop :=
  (bm.activeObjects.map Object.IDNoGen).Nodup ∧
  (∀ o ∈ bm.archivedObjects, o.Deleted ≠ "") ∧
  (∀ o ∈ bm.activeObjects, o.Generation ≠ 0) ∧
  (∀ o ∈ bm.archivedObjects, o.Generation ≠ 0) ∧
  (bm.VersioningEnabled = false → bm.archivedObjects = [])

/-- Store-wide invariant: every bucket in the map satisfies `bucketInv`. -/
def storeInv (s : StorageMemory) : Prop :=
  ∀ n bm, s n = some bm → bucketInv bm

/-! Concrete inputs used by witnesses and counterexamples. -/

def clkA : Clock := ⟨11, "2024-01-01T00:00:01Z", 1⟩
def clkB : Clock := ⟨22, "2024-01-01T00:00:02Z", 2⟩
def clkC : Clock := ⟨33, "2024-01-01T00:00:03Z", 3⟩
def clkD : Clock := ⟨44, "2024-01-01T00:00:04Z", 4⟩

/-- First write of the duplicate-generation scenario: payload "x". -/
def objX : Object := ⟨"b", "o", 7, "", "x"⟩

/-- Second write of the duplicate-generation scenario: payload "y". -/
def objY : Object := ⟨"b", "o", 7, "", "y"⟩

/-- Versioning enabled, then two writes of the same name with the same
caller-supplied generation 7. -/
def trace10 : List Op :=
  [.createBucket clkA "b" true, .createObject clkB objX, .createObject clkC objY]

def store10 : StorageMemory :=
  (runOps (NewStorageMemory []) trace10).getD emptyStorage

def bm10 : bucketInMemory :=
  (getBucketInMemory store10 "b").getD zeroBucket

/-- The archived first version: payload "x", stamped at `clkC`. -/
def objXArch : Object := ⟨"b", "o", 7, "2024-01-01T00:00:03Z", "x"⟩

/-- Bucket state for the C4 counterexample: versioning on, one stored
active entry with generation 5 and payload "x". -/
def c4Stored : Object := ⟨"b", "o", 5, "", "x"⟩
def c4Bm : bucketInMemory := ⟨⟨"b", true, 0⟩, [c4Stored], []⟩

/-- Delete argument sharing only the logical identity with the stored
entry: generation 7, payload "z". -/
def c4Arg : Object := ⟨"b", "o", 7, "", "z"⟩

/-- Store after deleting "o" from the versioning-enabled `store10`. -/
def store4 : StorageMemory :=
  match DeleteObject clkD store10 "b" "o" with
  | some (.ok s) => s
  | _ => emptyStorage

/-- Versioning disabled, one object written. -/
def trace5 : List Op :=
  [.createBucket clkA "b" false, .createObject clkB objX]

def store5 : StorageMemory :=
  (runOps (NewStorageMemory []) trace5).getD emptyStorage

def bm5 : bucketInMemory :=
  (getBucketInMemory store5 "b").getD zeroBucket

/-- Store after deleting "o" from the versioning-disabled `store5`. -/
def store5del : StorageMemory :=
  match DeleteObject clkC store5 "b" "o" with
  | some (.ok s) => s
  | _ => emptyStorage

/-- A one-bucket store used by the CreateBucket witness. -/
def storeB : StorageMemory :=
  setBucket emptyStorage "b" (newBucketInMemory clkA "b" true)

/-- Third write of the same name with a distinct generation 9. -/
def objW : Object := ⟨"b", "o", 9, "", "w"⟩

/-- Versioning enabled; "o" written at generation 7 then superseded at
generation 9, so the archive holds a unique generation-7 version. -/
def traceW : List Op :=
  [.createBucket clkA "b" true, .createObject clkB objX, .createObject clkC objW]

def storeW : StorageMemory :=
  (runOps (NewStorageMemory []) traceW).getD emptyStorage

def bmW : bucketInMemory :=
  (getBucketInMemory storeW "b").getD zeroBucket

end Backend

namespace Backend

/-! ### Identity and lookup helpers -/

theorem objMatch_full_imp_logical {obj o : Object} (h : objMatch true obj o = true) :
    objMatch false obj o = true := by
  have h' : obj.ID = o.ID := by simpa [objMatch] using h
  simp only [Object.ID, Prod.mk.injEq] at h'
  simp [objMatch, Object.IDNoGen, h'.1, h'.2.1]

theorem objMatch_stampDeleted_left {mg : Bool} {clk : Clock} {obj o : Object} :
    objMatch mg (stampDeleted clk obj) o = objMatch mg obj o := by
  simp [objMatch, stampDeleted, Object.ID, Object.IDNoGen]

theorem objMatch_self {mg : Bool} {obj : Object} : objMatch mg obj obj = true := by
  cases mg <;> simp [objMatch]

theorem findObject_eq_none_iff {obj : Object} {l : List Object} {mg : Bool} :
    findObject obj l mg = none ↔ ∀ o ∈ l, objMatch mg obj o = false :=
  List.findIdx?_eq_none_iff

theorem findObject_some_lt {obj : Object} {l : List Object} {mg : Bool} {i : Nat}
    (h : findObject obj l mg = some i) : i < l.length :=
  (List.findIdx?_eq_some_iff_findIdx_eq.mp h).1

theorem findObject_some_match {obj : Object} {l : List Object} {mg : Bool} {i : Nat}
    (h : findObject obj l mg = some i) :
    objMatch mg obj (l.getD i zeroObject) = true := by
  obtain ⟨hlt, hidx⟩ := List.findIdx?_eq_some_iff_findIdx_eq.mp h
  rw [List.getD_eq_getElem l zeroObject hlt]
  subst hidx
  exact List.findIdx_getElem

theorem findObject_some_first {obj : Object} {l : List Object} {mg : Bool} {i j : Nat}
    (h : findObject obj l mg = some i) (hj : j < i) :
    objMatch mg obj (l.getD j zeroObject) = false := by
  obtain ⟨hlt, hidx⟩ := List.findIdx?_eq_some_iff_findIdx_eq.mp h
  rw [List.getD_eq_getElem l zeroObject (lt_trans hj hlt)]
  subst hidx
  exact List.not_of_lt_findIdx hj

theorem findObject_isSome_of_mem {obj o : Object} {l : List Object} {mg : Bool}
    (hm : o ∈ l) (h : objMatch mg obj o = true) : (findObject obj l mg).isSome := by
  rw [← Option.ne_none_iff_isSome]
  intro hn
  exact absurd h (by simpa using findObject_eq_none_iff.mp hn o hm)

theorem findObject_logical_isSome_of_full {obj : Object} {l : List Object} {i : Nat}
    (h : findObject obj l true = some i) : (findObject obj l false).isSome := by
  have hlt := findObject_some_lt h
  have hmatch := findObject_some_match h
  have hmem : l.getD i zeroObject ∈ l := by
    rw [List.getD_eq_getElem l zeroObject hlt]; exact List.getElem_mem hlt
  exact findObject_isSome_of_mem hmem (objMatch_full_imp_logical hmatch)

/-! ### Swap-with-last removal -/

theorem set_getD_self {α : Type} (l : List α) (i : Nat) (d : α) (h : i < l.length) :
    l.set i (l.getD i d) = l := by
  apply List.ext_getElem?
  intro n
  by_cases hn : i = n
  · subst hn
    rw [List.getElem?_set_self h, List.getD_eq_getElem l d h, List.getElem?_eq_getElem h]
  · exact List.getElem?_set_ne hn

theorem swapRemove_perm {α : Type} (l : List α) (i : Nat) (d : α) (h : i < l.length) :
    ((l.set i (l.getD (l.length - 1) d)).take (l.length - 1)).Perm (l.eraseIdx i) := by
  have hpos : 0 < l.length := Nat.lt_of_le_of_lt (Nat.zero_le i) h
  have hlast : l.length - 1 < l.length := Nat.sub_lt hpos one_pos
  by_cases hi : i = l.length - 1
  · subst hi
    rw [set_getD_self l _ d hlast, List.eraseIdx_eq_take_drop_succ,
      Nat.sub_add_cancel hpos, List.drop_eq_nil_of_le (le_refl _), List.append_nil]
  · have hilt : i < l.length - 1 := Nat.lt_of_le_of_ne (Nat.le_sub_one_of_lt h) hi
    rw [List.getD_eq_getElem l d hlast, List.set_eq_take_append_cons_drop]
    simp only [h, if_true]
    have hlentake : (List.take i l).length = i := by
      rw [List.length_take]; exact Nat.min_eq_left (Nat.le_of_lt h)
    rw [List.take_append_eq_append_take, List.take_take, hlentake]
    have hmin : (l.length - 1) ⊓ i = i := Nat.min_eq_right (Nat.le_of_lt hilt)
    rw [hmin]
    obtain ⟨k, hk⟩ : ∃ k, l.length - 1 - i = k + 1 :=
      ⟨l.length - 1 - i - 1, by omega⟩
    rw [hk, List.take_succ_cons]
    have hdroplen : (List.drop (i + 1) l).length = l.length - (i + 1) := List.length_drop _ _
    have hklen : k = (List.drop (i + 1) l).length - 1 := by omega
    have hne : List.drop (i + 1) l ≠ [] := by
      intro hnil
      rw [hnil] at hdroplen
      simp at hdroplen
      omega
    have hlastdrop : l[l.length - 1] = (List.drop (i + 1) l).getLast hne := by
      rw [List.getLast_eq_getElem, List.getElem_drop]
      congr 1
      omega
    rw [List.eraseIdx_eq_take_drop_succ]
    apply List.Perm.append_left
    rw [hklen, ← List.dropLast_eq_take, hlastdrop]
    exact (List.perm_append_singleton _ _).symm.trans
      (by rw [List.dropLast_append_getLast hne])

/-! ### Nodup helpers -/

theorem nodup_map_set_self {α β : Type} {f : α → β} {l : List α} {i : Nat} {a : α}
    (d : α) (h : i < l.length) (heq : f a = f (l.getD i d))
    (hnd : (l.map f).Nodup) : ((l.set i a).map f).Nodup := by
  rw [List.map_set]
  have hlen : i < (l.map f).length := by simpa using h
  have hgd : f (l.getD i d) = (l.map f).getD i (f d) := by
    rw [List.getD_eq_getElem l d h, List.getD_eq_getElem _ _ hlen, List.getElem_map]
  rw [heq, hgd, set_getD_self _ _ _ hlen]
  exact hnd

theorem not_mem_map_eraseIdx {α β : Type} {f : α → β} {l : List α} {i : Nat}
    (d : α) (h : i < l.length) (hnd : (l.map f).Nodup) :
    ∀ x ∈ l.eraseIdx i, f x ≠ f (l.getD i d) := by
  intro x hx
  obtain ⟨j, hj, hji, hjx⟩ := List.mem_eraseIdx_iff_getElem.mp hx
  rw [List.getD_eq_getElem l d h, ← hjx]
  intro hfeq
  have hjm : j < (l.map f).length := by simpa using hj
  have him : i < (l.map f).length := by simpa using h
  have hmap : (l.map f)[j] = (l.map f)[i] := by
    rw [List.getElem_map, List.getElem_map]; exact hfeq
  exact hji (hnd.getElem_inj_iff.mp hmap)

/-! ### Characterizations of the bucket-level operations -/

theorem findObject_stamp {clk : Clock} {obj : Object} {l : List Object} {mg : Bool} :
    findObject (stampDeleted clk obj) l mg = findObject obj l mg := by
  have hp : (fun o => objMatch mg (stampDeleted clk obj) o) =
      (fun o => objMatch mg obj o) :=
    funext fun o => objMatch_stampDeleted_left
  unfold findObject
  rw [hp]

theorem swapRemove_perm_eraseIdx {l : List Object} {i : Nat} (h : i < l.length) :
    (swapRemove l i).Perm (l.eraseIdx i) :=
  swapRemove_perm l i zeroObject h

theorem deleteFromObjectList_active_eq {bm : bucketInMemory} {obj : Object} {i : Nat}
    (h : findObject obj bm.activeObjects false = some i) :
    deleteFromObjectList bm obj true =
      some ⟨bm.bucket, swapRemove bm.activeObjects i, bm.archivedObjects⟩ := by
  simp [deleteFromObjectList, h, swapRemove]

theorem mvToArchive_eq {bm : bucketInMemory} {obj : Object} {i : Nat}
    (h : findObject obj bm.activeObjects false = some i) :
    mvToArchive bm obj =
      some ⟨bm.bucket, swapRemove bm.activeObjects i, bm.archivedObjects ++ [obj]⟩ := by
  have h2 : findObject obj (cpToArchive bm obj).activeObjects false = some i := h
  unfold mvToArchive
  exact deleteFromObjectList_active_eq h2

theorem deleteObject_no_match {clk : Clock} {bm : bucketInMemory} {obj : Object}
    {mg : Bool} (h : findObject obj bm.activeObjects mg = none) :
    deleteObject clk bm obj mg = some bm := by
  simp [deleteObject, h]

theorem deleteObject_found_versioned {clk : Clock} {bm : bucketInMemory} {obj : Object}
    {mg : Bool} {i : Nat} (hv : bm.VersioningEnabled = true)
    (h : findObject obj bm.activeObjects mg = some i) :
    ∃ bm' j, findObject obj bm.activeObjects false = some j ∧
      deleteObject clk bm obj mg = some bm' ∧
      bm'.bucket = bm.bucket ∧
      bm'.archivedObjects = bm.archivedObjects ++ [stampDeleted clk obj] ∧
      bm'.activeObjects.Perm (bm.activeObjects.eraseIdx j) := by
  have hsome : (findObject obj bm.activeObjects false).isSome := by
    cases mg
    · rw [h]; rfl
    · exact findObject_logical_isSome_of_full h
  obtain ⟨j, hj⟩ := Option.isSome_iff_exists.mp hsome
  have hj' : findObject (stampDeleted clk obj) bm.activeObjects false = some j := by
    rw [findObject_stamp]; exact hj
  refine ⟨⟨bm.bucket, swapRemove bm.activeObjects j,
    bm.archivedObjects ++ [stampDeleted clk obj]⟩, j, hj, ?_, rfl, rfl, ?_⟩
  · simp only [deleteObject, h, hv, if_true]
    exact mvToArchive_eq hj'
  · exact swapRemove_perm_eraseIdx (findObject_some_lt hj)

theorem deleteObject_found_unversioned {clk : Clock} {bm : bucketInMemory} {obj : Object}
    {mg : Bool} {i : Nat} (hv : bm.VersioningEnabled = false)
    (h : findObject obj bm.activeObjects mg = some i) :
    ∃ bm' j, findObject obj bm.activeObjects false = some j ∧
      deleteObject clk bm obj mg = some bm' ∧
      bm'.bucket = bm.bucket ∧
      bm'.archivedObjects = bm.archivedObjects ∧
      bm'.activeObjects.Perm (bm.activeObjects.eraseIdx j) := by
  have hsome : (findObject obj bm.activeObjects false).isSome := by
    cases mg
    · rw [h]; rfl
    · exact findObject_logical_isSome_of_full h
  obtain ⟨j, hj⟩ := Option.isSome_iff_exists.mp hsome
  refine ⟨⟨bm.bucket, swapRemove bm.activeObjects j, bm.archivedObjects⟩, j, hj,
    ?_, rfl, rfl, ?_⟩
  · simp only [deleteObject, h, hv, Bool.false_eq_true, if_false]
    exact deleteFromObjectList_active_eq hj
  · exact swapRemove_perm_eraseIdx (findObject_some_lt hj)

theorem addObject_found_versioned {clk : Clock} {bm : bucketInMemory} {obj0 : Object}
    {i : Nat} (hv : bm.VersioningEnabled = true)
    (h : findObject (resolveGen clk obj0) bm.activeObjects false = some i) :
    addObject clk bm obj0 =
      { bm with
        activeObjects := bm.activeObjects.set i (resolveGen clk obj0),
        archivedObjects := bm.archivedObjects ++
          [stampDeleted clk (bm.activeObjects.getD i zeroObject)] } := by
  simp [addObject, h, hv]

theorem addObject_found_unversioned {clk : Clock} {bm : bucketInMemory} {obj0 : Object}
    {i : Nat} (hv : bm.VersioningEnabled = false)
    (h : findObject (resolveGen clk obj0) bm.activeObjects false = some i) :
    addObject clk bm obj0 =
      { bm with activeObjects := bm.activeObjects.set i (resolveGen clk obj0) } := by
  simp [addObject, h, hv]

theorem addObject_not_found {clk : Clock} {bm : bucketInMemory} {obj0 : Object}
    (h : findObject (resolveGen clk obj0) bm.activeObjects false = none) :
    addObject clk bm obj0 =
      { bm with activeObjects := bm.activeObjects ++ [resolveGen clk obj0] } := by
  simp [addObject, h]

theorem resolveGen_of_ne_zero {clk : Clock} {obj : Object} (h : obj.Generation ≠ 0) :
    resolveGen clk obj = obj := by
  simp [resolveGen, getNewGenerationIfZero, h]

theorem resolveGen_generation_ne_zero {clk : Clock} {obj : Object}
    (h : clk.micro ≠ 0) : (resolveGen clk obj).Generation ≠ 0 := by
  by_cases hg : obj.Generation = 0 <;>
    simp [resolveGen, getNewGenerationIfZero, hg, h]

/-! ### Store map helpers -/

theorem getBucket_setBucket_self {s : StorageMemory} {n : String} {bm : bucketInMemory} :
    getBucketInMemory (setBucket s n bm) n = some bm := by
  simp [getBucketInMemory, setBucket]

theorem getBucket_setBucket_ne {s : StorageMemory} {n k : String} {bm : bucketInMemory}
    (h : k ≠ n) : getBucketInMemory (setBucket s n bm) k = getBucketInMemory s k := by
  simp [getBucketInMemory, setBucket, h]

theorem storeInv_setBucket {s : StorageMemory} {n : String} {bm : bucketInMemory}
    (hs : storeInv s) (hb : bucketInv bm) : storeInv (setBucket s n bm) := by
  intro k bm' hk
  by_cases hkn : k = n
  · subst hkn
    rw [show setBucket s k bm k = some bm by simp [setBucket]] at hk
    exact (Option.some.injEq _ _ ▸ hk : bm = bm') ▸ hb
  · exact hs k bm' (by simpa [setBucket, hkn] using hk)

/-! ### Invariant preservation -/

theorem validClock_micro {c : Clock} (h : ValidClock c = true) : c.micro ≠ 0 := by
  simp [ValidClock] at h
  exact h.1

theorem validClock_rfc {c : Clock} (h : ValidClock c = true) : c.rfc ≠ "" := by
  simp [ValidClock] at h
  exact h.2

theorem versioningEnabled_mk {b : Bucket} {a ar : List Object} :
    (bucketInMemory.mk b a ar).VersioningEnabled = b.VersioningEnabled := rfl

theorem bucketInv_zeroBucket : bucketInv zeroBucket := by
  simp [bucketInv, zeroBucket]

theorem bucketInv_newBucket {clk : Clock} {name : String} {v : Bool} :
    bucketInv (newBucketInMemory clk name v) := by
  simp [bucketInv, newBucketInMemory]

theorem objMatch_false_iff {obj o : Object} :
    objMatch false obj o = true ↔ obj.IDNoGen = o.IDNoGen := by
  simp [objMatch]

theorem objMatch_true_iff {obj o : Object} :
    objMatch true obj o = true ↔ obj.ID = o.ID := by
  simp [objMatch]

theorem addObject_bucketInv {clk : Clock} {bm : bucketInMemory} {obj : Object}
    (hc : ValidClock clk = true) (hinv : bucketInv bm) :
    bucketInv (addObject clk bm obj) := by
  obtain ⟨hnd, hmark, hgact, hgarch, hvoff⟩ := hinv
  have hmicro := validClock_micro hc
  have hrfc := validClock_rfc hc
  have hg' : (resolveGen clk obj).Generation ≠ 0 := resolveGen_generation_ne_zero hmicro
  cases hfind : findObject (resolveGen clk obj) bm.activeObjects false with
  | none =>
    rw [addObject_not_found hfind]
    refine ⟨?_, hmark, ?_, hgarch, hvoff⟩
    · rw [List.map_append]
      refine List.nodup_append.mpr ⟨hnd, List.nodup_singleton _, ?_⟩
      intro a ha hb
      rw [List.map_singleton, List.mem_singleton] at hb
      obtain ⟨x, hx, hxa⟩ := List.mem_map.mp ha
      have := findObject_eq_none_iff.mp hfind x hx
      rw [show objMatch false (resolveGen clk obj) x =
        decide ((resolveGen clk obj).IDNoGen = x.IDNoGen) from rfl] at this
      simp only [decide_eq_false_iff_not] at this
      exact this (hb.symm.trans hxa.symm)
    · intro o ho
      rcases List.mem_append.mp ho with hmem | hmem
      · exact hgact o hmem
      · rw [List.mem_singleton] at hmem
        exact hmem ▸ hg'
  | some i =>
    have hlt := findObject_some_lt hfind
    have hids : (resolveGen clk obj).IDNoGen =
        (bm.activeObjects.getD i zeroObject).IDNoGen :=
      objMatch_false_iff.mp (findObject_some_match hfind)
    have hndset : ((bm.activeObjects.set i (resolveGen clk obj)).map Object.IDNoGen).Nodup :=
      nodup_map_set_self zeroObject hlt hids hnd
    have hgset : ∀ o ∈ bm.activeObjects.set i (resolveGen clk obj), o.Generation ≠ 0 := by
      intro o ho
      rcases List.mem_or_eq_of_mem_set ho with hmem | heq
      · exact hgact o hmem
      · exact heq ▸ hg'
    cases hv : bm.VersioningEnabled with
    | true =>
      rw [addObject_found_versioned hv hfind]
      refine ⟨hndset, ?_, hgset, ?_, ?_⟩
      · intro o ho
        rcases List.mem_append.mp ho with hmem | hmem
        · exact hmark o hmem
        · rw [List.mem_singleton] at hmem
          subst hmem
          exact hrfc
      · intro o ho
        rcases List.mem_append.mp ho with hmem | hmem
        · exact hgarch o hmem
        · rw [List.mem_singleton] at hmem
          subst hmem
          have : (bm.activeObjects.getD i zeroObject) ∈ bm.activeObjects := by
            rw [List.getD_eq_getElem _ _ hlt]
            exact List.getElem_mem hlt
          simpa [stampDeleted] using hgact _ this
      · intro hfalse
        rw [show ({ bm with
            activeObjects := bm.activeObjects.set i (resolveGen clk obj),
            archivedObjects := bm.archivedObjects ++
              [stampDeleted clk (bm.activeObjects.getD i zeroObject)] } :
              bucketInMemory).VersioningEnabled = bm.VersioningEnabled from rfl, hv]
          at hfalse
        cases hfalse
    | false =>
      rw [addObject_found_unversioned hv hfind]
      exact ⟨hndset, hmark, hgset, hgarch, fun _ => hvoff hv⟩

theorem deleteObject_bucketInv {clk : Clock} {bm bm' : bucketInMemory} {obj : Object}
    {mg : Bool} (hc : ValidClock clk = true) (hinv : bucketInv bm)
    (hg : obj.Generation ≠ 0) (h : deleteObject clk bm obj mg = some bm') :
    bucketInv bm' := by
  obtain ⟨hnd, hmark, hgact, hgarch, hvoff⟩ := hinv
  have hrfc := validClock_rfc hc
  cases hfind : findObject obj bm.activeObjects mg with
  | none =>
    rw [deleteObject_no_match hfind] at h
    cases h
    exact ⟨hnd, hmark, hgact, hgarch, hvoff⟩
  | some i =>
    have hactive : ∀ (bmr : bucketInMemory) (j : Nat),
        bmr.activeObjects.Perm (bm.activeObjects.eraseIdx j) →
        (bmr.activeObjects.map Object.IDNoGen).Nodup ∧
        ∀ o ∈ bmr.activeObjects, o.Generation ≠ 0 := by
      intro bmr j hperm
      constructor
      · refine ((hperm.map Object.IDNoGen).nodup_iff).mpr ?_
        exact List.Nodup.sublist
          (List.Sublist.map Object.IDNoGen (List.eraseIdx_sublist _ j)) hnd
      · intro o ho
        exact hgact o ((List.eraseIdx_sublist _ j).subset (hperm.subset ho))
    cases hv : bm.VersioningEnabled with
    | true =>
      obtain ⟨bm2, j, hj, heq, hbkt, harch, hperm⟩ :=
        @deleteObject_found_versioned clk _ _ _ _ hv hfind
      have hbm : bm' = bm2 := by
        rw [h] at heq
        exact Option.some.inj heq
      subst hbm
      obtain ⟨hnd2, hg2⟩ := hactive bm' j hperm
      refine ⟨hnd2, ?_, hg2, ?_, ?_⟩
      · rw [harch]
        intro o ho
        rcases List.mem_append.mp ho with hmem | hmem
        · exact hmark o hmem
        · rw [List.mem_singleton] at hmem
          subst hmem
          exact hrfc
      · rw [harch]
        intro o ho
        rcases List.mem_append.mp ho with hmem | hmem
        · exact hgarch o hmem
        · rw [List.mem_singleton] at hmem
          subst hmem
          exact hg
      · intro hfalse
        rw [show bm'.VersioningEnabled = bm.bucket.VersioningEnabled from
          congrArg Bucket.VersioningEnabled hbkt, show bm.bucket.VersioningEnabled =
          bm.VersioningEnabled from rfl, hv] at hfalse
        cases hfalse
    | false =>
      obtain ⟨bm2, j, hj, heq, hbkt, harch, hperm⟩ :=
        @deleteObject_found_unversioned clk _ _ _ _ hv hfind
      have hbm : bm' = bm2 := by
        rw [h] at heq
        exact Option.some.inj heq
      subst hbm
      obtain ⟨hnd2, hg2⟩ := hactive bm' j hperm
      refine ⟨hnd2, ?_, hg2, ?_, ?_⟩
      · rw [harch]; exact hmark
      · rw [harch]; exact hgarch
      · intro _
        rw [harch]
        exact hvoff hv

/-! ### Engine-level equations -/

theorem GetObjectWithGeneration_absent {s : StorageMemory} {b o : String} {g : Int}
    (hb : getBucketInMemory s b = none) :
    GetObjectWithGeneration s b o g = .error (.bucketNotFound b) := by
  simp [GetObjectWithGeneration, hb]

theorem GetObject_zero_eq {s : StorageMemory} {b o : String} {bm : bucketInMemory}
    (hb : getBucketInMemory s b = some bm) :
    GetObject s b o =
      (match findObject ⟨b, o, 0, "", ""⟩ bm.activeObjects false with
       | none => .error .objectNotFound
       | some index => .ok (bm.activeObjects.getD index zeroObject)) := by
  simp [GetObject, GetObjectWithGeneration, hb]

theorem GetObjectWithGeneration_nonzero_eq {s : StorageMemory} {b o : String} {g : Int}
    {bm : bucketInMemory} (hg : g ≠ 0) (hb : getBucketInMemory s b = some bm) :
    GetObjectWithGeneration s b o g =
      (match findObject ⟨b, o, g, "", ""⟩ (bm.activeObjects ++ bm.archivedObjects) true with
       | none => .error .objectNotFound
       | some index =>
           .ok ((bm.activeObjects ++ bm.archivedObjects).getD index zeroObject)) := by
  simp [GetObjectWithGeneration, hb, hg]

theorem GetObject_ok_spec {s : StorageMemory} {b o : String} {obj : Object}
    (h : GetObject s b o = .ok obj) :
    ∃ bm i, getBucketInMemory s b = some bm ∧
      findObject ⟨b, o, 0, "", ""⟩ bm.activeObjects false = some i ∧
      obj = bm.activeObjects.getD i zeroObject ∧
      obj ∈ bm.activeObjects ∧ obj.IDNoGen = (b, o) := by
  cases hb : getBucketInMemory s b with
  | none =>
    rw [GetObject, GetObjectWithGeneration_absent hb] at h
    cases h
  | some bm =>
    rw [GetObject_zero_eq hb] at h
    cases hf : findObject ⟨b, o, 0, "", ""⟩ bm.activeObjects false with
    | none =>
      rw [hf] at h
      cases h
    | some i =>
      rw [hf] at h
      have hobj : bm.activeObjects.getD i zeroObject = obj := Except.ok.inj h
      have hlt := findObject_some_lt hf
      have hmem : obj ∈ bm.activeObjects := by
        rw [← hobj, List.getD_eq_getElem _ _ hlt]
        exact List.getElem_mem hlt
      have hid : obj.IDNoGen = (b, o) := by
        have := objMatch_false_iff.mp (findObject_some_match hf)
        rw [hobj] at this
        exact this.symm
      exact ⟨bm, i, rfl, hf, hobj.symm, hmem, hid⟩

theorem GetObject_objectNotFound_iff {s : StorageMemory} {b o : String}
    {bm : bucketInMemory} (hb : getBucketInMemory s b = some bm) :
    GetObject s b o = .error .objectNotFound ↔
      ∀ x ∈ bm.activeObjects, x.IDNoGen ≠ (b, o) := by
  rw [GetObject_zero_eq hb]
  constructor
  · intro h x hx
    cases hf : findObject ⟨b, o, 0, "", ""⟩ bm.activeObjects false with
    | none =>
      have := findObject_eq_none_iff.mp hf x hx
      rw [show objMatch false ⟨b, o, 0, "", ""⟩ x =
        decide ((Object.IDNoGen ⟨b, o, 0, "", ""⟩) = x.IDNoGen) from rfl] at this
      simp only [decide_eq_false_iff_not] at this
      intro hxid
      exact this (by rw [hxid]; rfl)
    | some i =>
      rw [hf] at h
      cases h
  · intro hall
    have hf : findObject ⟨b, o, 0, "", ""⟩ bm.activeObjects false = none := by
      refine findObject_eq_none_iff.mpr ?_
      intro x hx
      rw [show objMatch false ⟨b, o, 0, "", ""⟩ x =
        decide ((Object.IDNoGen ⟨b, o, 0, "", ""⟩) = x.IDNoGen) from rfl]
      simp only [decide_eq_false_iff_not]
      intro hid
      exact hall x hx (by rw [← hid]; rfl)
    rw [hf]

theorem DeleteObject_eq {clk : Clock} {s : StorageMemory} {b o : String} {obj : Object}
    {bm : bucketInMemory} (hobj : GetObject s b o = .ok obj)
    (hb : getBucketInMemory s b = some bm) :
    DeleteObject clk s b o =
      (deleteObject clk bm obj true).map fun bm' => .ok (setBucket s b bm') := by
  simp [DeleteObject, hobj, hb]

theorem CreateObject_existing {clk : Clock} {s : StorageMemory} {obj : Object}
    {bm : bucketInMemory} (hb : getBucketInMemory s obj.BucketName = some bm) :
    CreateObject clk s obj =
      .ok (setBucket s obj.BucketName (addObject clk bm obj)) := by
  simp [CreateObject, hb]

theorem CreateObject_absent {clk : Clock} {s : StorageMemory} {obj : Object}
    (hb : getBucketInMemory s obj.BucketName = none) :
    CreateObject clk s obj =
      .ok (setBucket s obj.BucketName
        (addObject clk (newBucketInMemory clk obj.BucketName false) obj)) := by
  simp [CreateObject, hb]

theorem CreateBucket_absent {clk : Clock} {s : StorageMemory} {n : String} {v : Bool}
    (hb : getBucketInMemory s n = none) :
    CreateBucket clk s n v = .ok (setBucket s n (newBucketInMemory clk n v)) := by
  simp [CreateBucket, hb]

theorem CreateBucket_same {clk : Clock} {s : StorageMemory} {n : String} {v : Bool}
    {bm : bucketInMemory} (hb : getBucketInMemory s n = some bm)
    (hv : bm.VersioningEnabled = v) :
    CreateBucket clk s n v = .ok s := by
  simp [CreateBucket, hb, hv]

theorem CreateBucket_conflict {clk : Clock} {s : StorageMemory} {n : String} {v : Bool}
    {bm : bucketInMemory} (hb : getBucketInMemory s n = some bm)
    (hv : bm.VersioningEnabled ≠ v) :
    CreateBucket clk s n v = .error (.conflict n) := by
  simp [CreateBucket, hb, hv]

/-! ### Store invariant propagation -/

theorem CreateBucket_storeInv {clk : Clock} {s s' : StorageMemory} {n : String}
    {v : Bool} (hs : storeInv s) (h : CreateBucket clk s n v = .ok s') :
    storeInv s' := by
  cases hb : getBucketInMemory s n with
  | none =>
    rw [CreateBucket_absent hb] at h
    cases h
    exact storeInv_setBucket hs bucketInv_newBucket
  | some bm =>
    by_cases hv : bm.VersioningEnabled = v
    · rw [CreateBucket_same hb hv] at h
      cases h
      exact hs
    · rw [CreateBucket_conflict hb hv] at h
      cases h

theorem CreateObject_storeInv {clk : Clock} {s s' : StorageMemory} {obj : Object}
    (hc : ValidClock clk = true) (hs : storeInv s)
    (h : CreateObject clk s obj = .ok s') : storeInv s' := by
  cases hb : getBucketInMemory s obj.BucketName with
  | none =>
    rw [CreateObject_absent hb] at h
    cases h
    exact storeInv_setBucket hs (addObject_bucketInv hc bucketInv_newBucket)
  | some bm =>
    rw [CreateObject_existing hb] at h
    cases h
    exact storeInv_setBucket hs (addObject_bucketInv hc (hs _ _ hb))

theorem DeleteObject_storeInv {clk : Clock} {s s' : StorageMemory} {b o : String}
    (hc : ValidClock clk = true) (hs : storeInv s)
    (h : DeleteObject clk s b o = some (.ok s')) : storeInv s' := by
  cases hobj : GetObject s b o with
  | error e =>
    rw [show DeleteObject clk s b o = some (.error e) by simp [DeleteObject, hobj]] at h
    cases h
  | ok obj =>
    obtain ⟨bm, i, hb, hf, hgd, hmem, hid⟩ := GetObject_ok_spec hobj
    rw [DeleteObject_eq hobj hb] at h
    cases hd : deleteObject clk bm obj true with
    | none =>
      rw [hd] at h
      cases h
    | some bm' =>
      rw [hd] at h
      have hs' : s' = setBucket s b bm' := (Except.ok.inj (Option.some.inj h)).symm
      subst hs'
      have hg : obj.Generation ≠ 0 := (hs _ _ hb).2.2.1 obj hmem
      exact storeInv_setBucket hs (deleteObject_bucketInv hc (hs _ _ hb) hg hd)

theorem applyOp_storeInv {s s' : StorageMemory} {op : Op} (hv : OpValid op = true)
    (hs : storeInv s) (h : applyOp s op = some s') : storeInv s' := by
  cases op with
  | createBucket clk n v =>
    simp only [applyOp] at h
    cases hc : CreateBucket clk s n v with
    | ok s2 =>
      rw [hc] at h
      cases h
      exact CreateBucket_storeInv hs hc
    | error e =>
      rw [hc] at h
      cases h
      exact hs
  | createObject clk obj =>
    simp only [applyOp] at h
    cases hc : CreateObject clk s obj with
    | ok s2 =>
      rw [hc] at h
      cases h
      exact CreateObject_storeInv hv hs hc
    | error e =>
      rw [hc] at h
      cases h
      exact hs
  | delObject clk b o =>
    simp only [applyOp] at h
    cases hc : DeleteObject clk s b o with
    | none =>
      rw [hc] at h
      cases h
    | some r =>
      cases r with
      | ok s2 =>
        rw [hc] at h
        cases h
        exact DeleteObject_storeInv hv hs hc
      | error e =>
        rw [hc] at h
        cases h
        exact hs
  | listBuckets =>
    cases h
    exact hs
  | getBucket n =>
    cases h
    exact hs
  | listObjects n v =>
    cases h
    exact hs
  | getObject b o =>
    cases h
    exact hs
  | getObjectWithGen b o g =>
    cases h
    exact hs

theorem runOps_storeInv {s s' : StorageMemory} {ops : List Op}
    (hv : ∀ op ∈ ops, OpValid op = true) (hs : storeInv s)
    (h : runOps s ops = some s') : storeInv s' := by
  induction ops generalizing s with
  | nil =>
    cases h
    exact hs
  | cons op rest ih =>
    simp only [runOps] at h
    cases ha : applyOp s op with
    | none =>
      rw [ha] at h
      cases h
    | some s2 =>
      rw [ha] at h
      exact ih (fun x hx => hv x (List.mem_cons_of_mem _ hx))
        (applyOp_storeInv (hv op (List.mem_cons_self _ _)) hs ha) h

theorem storeInv_empty : storeInv emptyStorage := by
  intro n bm h
  cases h

theorem seedStep_storeInv {s : StorageMemory} {co : Clock × Object}
    (hc : ValidClock co.1 = true) (hs : storeInv s) : storeInv (seedStep s co) := by
  unfold seedStep
  have hs1 : storeInv
      (match CreateBucket co.1 s co.2.BucketName false with
       | .ok s' => s'
       | .error _ => s) := by
    cases hcb : CreateBucket co.1 s co.2.BucketName false with
    | ok s2 => exact CreateBucket_storeInv hs hcb
    | error e => exact hs
  have hbk : bucketInv ((getBucketInMemory
      (match CreateBucket co.1 s co.2.BucketName false with
       | .ok s' => s'
       | .error _ => s) co.2.BucketName).getD zeroBucket) := by
    cases hg : getBucketInMemory
        (match CreateBucket co.1 s co.2.BucketName false with
         | .ok s' => s'
         | .error _ => s) co.2.BucketName with
    | none => exact bucketInv_zeroBucket
    | some bm => exact hs1 _ _ hg
  exact storeInv_setBucket hs1 (addObject_bucketInv hc hbk)

theorem foldl_seedStep_storeInv {seed : List (Clock × Object)} :
    ∀ s : StorageMemory, (∀ co ∈ seed, ValidClock co.1 = true) → storeInv s →
      storeInv (seed.foldl seedStep s) := by
  induction seed with
  | nil =>
    intro s _ hs
    exact hs
  | cons co rest ih =>
    intro s hc hs
    simp only [List.foldl_cons]
    exact ih _ (fun x hx => hc x (List.mem_cons_of_mem _ hx))
      (seedStep_storeInv (hc co (List.mem_cons_self _ _)) hs)

theorem NewStorageMemory_storeInv {seed : List (Clock × Object)}
    (hc : ∀ co ∈ seed, ValidClock co.1 = true) :
    storeInv (NewStorageMemory seed) :=
  foldl_seedStep_storeInv emptyStorage hc storeInv_empty

theorem reachable_storeInv {s : StorageMemory} (h : Reachable s) : storeInv s := by
  obtain ⟨seed, ops, hseed, hops, hrun⟩ := h
  exact runOps_storeInv hops (NewStorageMemory_storeInv hseed) hrun

theorem addObject_bucket {clk : Clock} {bm : bucketInMemory} {obj : Object} :
    (addObject clk bm obj).bucket = bm.bucket := by
  cases hfind : findObject (resolveGen clk obj) bm.activeObjects false with
  | none => rw [addObject_not_found hfind]
  | some i =>
    cases hv : bm.VersioningEnabled with
    | true => rw [addObject_found_versioned hv hfind]
    | false => rw [addObject_found_unversioned hv hfind]

theorem resolveGen_mem_addObject {clk : Clock} {bm : bucketInMemory} {obj : Object} :
    resolveGen clk obj ∈ (addObject clk bm obj).activeObjects := by
  cases hfind : findObject (resolveGen clk obj) bm.activeObjects false with
  | none =>
    rw [addObject_not_found hfind]
    simp
  | some i =>
    have hlt := findObject_some_lt hfind
    cases hv : bm.VersioningEnabled with
    | true =>
      rw [addObject_found_versioned hv hfind]
      exact List.mem_set _ _ hlt _
    | false =>
      rw [addObject_found_unversioned hv hfind]
      exact List.mem_set _ _ hlt _

theorem deleteObject_isSome {clk : Clock} {bm : bucketInMemory} {obj : Object}
    {mg : Bool} : (deleteObject clk bm obj mg).isSome := by
  cases hfind : findObject obj bm.activeObjects mg with
  | none =>
    rw [deleteObject_no_match hfind]
    rfl
  | some i =>
    cases hv : bm.VersioningEnabled with
    | true =>
      obtain ⟨bm', j, _, heq, _, _, _⟩ := @deleteObject_found_versioned clk _ _ _ _ hv hfind
      rw [heq]
      rfl
    | false =>
      obtain ⟨bm', j, _, heq, _, _, _⟩ := @deleteObject_found_unversioned clk _ _ _ _ hv hfind
      rw [heq]
      rfl

/-! ### Claims -/

/-- C8: for every store state, bucket name and object name, `GetObject`
returns exactly the same result (object or error) as
`GetObjectWithGeneration` called with generation 0. -/
theorem claim_C8 (s : StorageMemory) (b o : String) :
    GetObject s b o = GetObjectWithGeneration s b o 0 := rfl

/-- C6: `CreateBucket` creates an absent bucket with the requested flag and
creation time and leaves other buckets alone; re-creation with the same
flag succeeds and leaves the store unchanged (still exactly the one
bucket under that name); re-creation with a different flag fails with a
`Conflict` error naming the bucket, returning no new store state, so the
existing bucket keeps its flag and creation time. -/
theorem claim_C6 (clk : Clock) (s : StorageMemory) (name : String) (v : Bool) :
    (getBucketInMemory s name = none →
      CreateBucket clk s name v = .ok (setBucket s name (newBucketInMemory clk name v)) ∧
      getBucketInMemory (setBucket s name (newBucketInMemory clk name v)) name =
        some (newBucketInMemory clk name v) ∧
      (newBucketInMemory clk name v).VersioningEnabled = v ∧
      (newBucketInMemory clk name v).bucket.TimeCreated = clk.time ∧
      ∀ k, k ≠ name →
        getBucketInMemory (setBucket s name (newBucketInMemory clk name v)) k =
          getBucketInMemory s k) ∧
    (∀ bm, getBucketInMemory s name = some bm → bm.VersioningEnabled = v →
      CreateBucket clk s name v = .ok s) ∧
    (∀ bm, getBucketInMemory s name = some bm → bm.VersioningEnabled ≠ v →
      CreateBucket clk s name v = .error (.conflict name)) := by
  refine ⟨?_, ?_, ?_⟩
  · intro hb
    exact ⟨CreateBucket_absent hb, getBucket_setBucket_self, rfl, rfl,
      fun k hk => getBucket_setBucket_ne hk⟩
  · intro bm hb hv
    exact CreateBucket_same hb hv
  · intro bm hb hv
    exact CreateBucket_conflict hb hv

theorem claim_C6_witness :
    (getBucketInMemory emptyStorage "b" = none ∧
      CreateBucket clkA emptyStorage "b" true =
        .ok (setBucket emptyStorage "b" (newBucketInMemory clkA "b" true))) ∧
    (getBucketInMemory storeB "b" = some (newBucketInMemory clkA "b" true) ∧
      (newBucketInMemory clkA "b" true).VersioningEnabled = true ∧
      CreateBucket clkB storeB "b" true = .ok storeB) ∧
    ((newBucketInMemory clkA "b" true).VersioningEnabled ≠ false ∧
      CreateBucket clkB storeB "b" false = .error (.conflict "b")) :=
  ⟨⟨rfl, ((claim_C6 clkA emptyStorage "b" true).1 rfl).1⟩,
    ⟨rfl, rfl, (claim_C6 clkB storeB "b" true).2.1 _ rfl rfl⟩,
    ⟨by decide, (claim_C6 clkB storeB "b" false).2.2 _ rfl (by decide)⟩⟩

/-- C7: `CreateObject` never returns an error: the bucket is resolved or
implicitly created with versioning disabled, and the object — with a
non-zero caller-supplied generation kept exactly as given and a zero
generation replaced by the freshly observed non-zero clock value — is
stored in the bucket's active list. -/
theorem claim_C7 (clk : Clock) (s : StorageMemory) (obj : Object)
    (hm : clk.micro ≠ 0) :
    ∃ s', CreateObject clk s obj = .ok s' ∧
      ∃ bm', getBucketInMemory s' obj.BucketName = some bm' ∧
        resolveGen clk obj ∈ bm'.activeObjects ∧
        (resolveGen clk obj).Generation ≠ 0 ∧
        (obj.Generation ≠ 0 → resolveGen clk obj = obj) ∧
        (obj.Generation = 0 → (resolveGen clk obj).Generation = clk.micro) ∧
        (getBucketInMemory s obj.BucketName = none →
          bm'.VersioningEnabled = false) := by
  have hgen := @resolveGen_generation_ne_zero clk obj hm
  cases hb : getBucketInMemory s obj.BucketName with
  | none =>
    refine ⟨_, CreateObject_absent hb, addObject clk
      (newBucketInMemory clk obj.BucketName false) obj, getBucket_setBucket_self,
      resolveGen_mem_addObject, hgen, resolveGen_of_ne_zero, ?_, ?_⟩
    · intro h0
      simp [resolveGen, getNewGenerationIfZero, h0]
    · intro _
      rw [show (addObject clk (newBucketInMemory clk obj.BucketName false)
        obj).VersioningEnabled = (addObject clk (newBucketInMemory clk
        obj.BucketName false) obj).bucket.VersioningEnabled from rfl, addObject_bucket]
      rfl
  | some bm =>
    refine ⟨_, CreateObject_existing hb, addObject clk bm obj,
      getBucket_setBucket_self, resolveGen_mem_addObject, hgen,
      resolveGen_of_ne_zero, ?_, ?_⟩
    · intro h0
      simp [resolveGen, getNewGenerationIfZero, h0]
    · intro hnone
      cases hnone

theorem claim_C7_witness :
    clkA.micro ≠ 0 ∧
    (∃ s', CreateObject clkA emptyStorage objX = .ok s' ∧
      ∃ bm', getBucketInMemory s' objX.BucketName = some bm' ∧
        resolveGen clkA objX ∈ bm'.activeObjects ∧
        (resolveGen clkA objX).Generation ≠ 0 ∧
        (objX.Generation ≠ 0 → resolveGen clkA objX = objX) ∧
        (objX.Generation = 0 → (resolveGen clkA objX).Generation = clkA.micro) ∧
        (getBucketInMemory emptyStorage objX.BucketName = none →
          bm'.VersioningEnabled = false)) :=
  ⟨by decide, claim_C7 clkA emptyStorage objX (by decide)⟩

/-- C9: whenever `deleteObject` has found a match in the active list, the
unchecked second lookup inside `deleteFromObjectList` — which matches by
logical identity — also succeeds, so every list access on the delete path
is in bounds: `deleteObject` never reaches the out-of-range access
(modelled as `none`). -/
theorem claim_C9 :
    (∀ (obj : Object) (l : List Object) (i : Nat),
      findObject obj l true = some i → (findObject obj l false).isSome) ∧
    (∀ (bm : bucketInMemory) (obj : Object) (i : Nat),
      findObject obj bm.activeObjects false = some i →
      (deleteFromObjectList bm obj true).isSome) ∧
    (∀ (clk : Clock) (bm : bucketInMemory) (obj : Object) (mg : Bool),
      (deleteObject clk bm obj mg).isSome) := by
  refine ⟨?_, ?_, ?_⟩
  · intro obj l i h
    exact findObject_logical_isSome_of_full h
  · intro bm obj i h
    rw [deleteFromObjectList_active_eq h]
    rfl
  · intro clk bm obj mg
    exact deleteObject_isSome

theorem claim_C9_witness :
    (findObject objX [objX] true = some 0 ∧ (findObject objX [objX] false).isSome) ∧
    (findObject objX c4Bm.activeObjects false = some 0 ∧
      (deleteFromObjectList c4Bm objX true).isSome) ∧
    (deleteObject clkA c4Bm objX true).isSome :=
  ⟨⟨by decide, claim_C9.1 objX [objX] 0 (by decide)⟩,
    ⟨by decide, claim_C9.2.1 c4Bm objX 0 (by decide)⟩,
    claim_C9.2.2 clkA c4Bm objX true⟩

/-- C10: full identity is not unique across active plus archived: two
`CreateObject` calls into a versioning-enabled bucket with the same name
and the same non-zero generation 7 leave an active and an archived entry
with identical full identity; `ListObjects` with versions returns both,
and `GetObjectWithGeneration` for generation 7 returns the active one
because the active list is searched first. -/
theorem claim_C10 :
    runOps (NewStorageMemory []) trace10 = some store10 ∧
    getBucketInMemory store10 "b" = some bm10 ∧
    bm10.VersioningEnabled = true ∧
    bm10.activeObjects = [objY] ∧
    bm10.archivedObjects = [objXArch] ∧
    objY.ID = ("b", "o", 7) ∧
    objXArch.ID = ("b", "o", 7) ∧
    objY ≠ objXArch ∧
    ListObjects store10 "b" true = .ok [objY, objXArch] ∧
    GetObjectWithGeneration store10 "b" "o" 7 = .ok objY :=
  ⟨rfl, rfl, rfl, rfl, rfl, rfl, rfl, by decide, rfl, rfl⟩

/-- C2: in every state reachable from the empty store or a
constructor-seeded store by public operations, every bucket's active list
has at most one entry per logical identity and every archived entry
carries a non-empty deleted marker. -/
theorem claim_C2 (s : StorageMemory) (h : Reachable s) (n : String)
    (bm : bucketInMemory) (hb : getBucketInMemory s n = some bm) :
    (bm.activeObjects.map Object.IDNoGen).Nodup ∧
    ∀ o ∈ bm.archivedObjects, o.Deleted ≠ "" := by
  have hinv := reachable_storeInv h n bm hb
  exact ⟨hinv.1, hinv.2.1⟩

theorem claim_C2_witness :
    Reachable store10 ∧ getBucketInMemory store10 "b" = some bm10 ∧
    ((bm10.activeObjects.map Object.IDNoGen).Nodup ∧
      ∀ o ∈ bm10.archivedObjects, o.Deleted ≠ "") :=
  have hreach : Reachable store10 :=
    ⟨[], trace10, fun co hco => absurd hco (List.not_mem_nil co), by decide, rfl⟩
  ⟨hreach, rfl, claim_C2 store10 hreach "b" bm10 rfl⟩

/-- C1: `addObject` of an object with an already-resolved (non-zero)
generation: if a logical-identity match exists and versioning is enabled,
the prior entry, stamped with a non-empty deleted marker, is appended to
the archive and the active slot is overwritten with the object; with
versioning disabled the slot is overwritten and the archive unchanged; if
no match exists the object is appended and the archive unchanged.  In
every case the active list afterwards holds exactly one entry for the
object's logical identity, namely the object itself. -/
theorem claim_C1 (clk : Clock) (bm : bucketInMemory) (obj : Object)
    (hg : obj.Generation ≠ 0) (hrfc : clk.rfc ≠ "")
    (hnd : (bm.activeObjects.map Object.IDNoGen).Nodup) :
    (∀ i, findObject obj bm.activeObjects false = some i →
      (bm.VersioningEnabled = true →
        (addObject clk bm obj).activeObjects = bm.activeObjects.set i obj ∧
        (addObject clk bm obj).archivedObjects = bm.archivedObjects ++
          [stampDeleted clk (bm.activeObjects.getD i zeroObject)] ∧
        (stampDeleted clk (bm.activeObjects.getD i zeroObject)).Deleted ≠ "") ∧
      (bm.VersioningEnabled = false →
        (addObject clk bm obj).activeObjects = bm.activeObjects.set i obj ∧
        (addObject clk bm obj).archivedObjects = bm.archivedObjects)) ∧
    (findObject obj bm.activeObjects false = none →
      (addObject clk bm obj).activeObjects = bm.activeObjects ++ [obj] ∧
      (addObject clk bm obj).archivedObjects = bm.archivedObjects) ∧
    ((addObject clk bm obj).activeObjects.countP
        (fun x => decide (x.IDNoGen = obj.IDNoGen)) = 1 ∧
      ∀ x ∈ (addObject clk bm obj).activeObjects,
        x.IDNoGen = obj.IDNoGen → x = obj) := by
  have hres : resolveGen clk obj = obj := resolveGen_of_ne_zero hg
  refine ⟨?_, ?_, ?_⟩
  · intro i hfind
    have hfind' : findObject (resolveGen clk obj) bm.activeObjects false = some i := by
      rw [hres]; exact hfind
    constructor
    · intro hv
      rw [addObject_found_versioned hv hfind', hres]
      exact ⟨rfl, rfl, hrfc⟩
    · intro hv
      rw [addObject_found_unversioned hv hfind', hres]
      exact ⟨rfl, rfl⟩
  · intro hfind
    have hfind' : findObject (resolveGen clk obj) bm.activeObjects false = none := by
      rw [hres]; exact hfind
    rw [addObject_not_found hfind', hres]
    exact ⟨rfl, rfl⟩
  · cases hfind : findObject obj bm.activeObjects false with
    | some i =>
      have hfind' : findObject (resolveGen clk obj) bm.activeObjects false = some i := by
        rw [hres]; exact hfind
      have hact : (addObject clk bm obj).activeObjects =
          bm.activeObjects.set i obj := by
        cases hv : bm.VersioningEnabled with
        | true => rw [addObject_found_versioned hv hfind', hres]
        | false => rw [addObject_found_unversioned hv hfind', hres]
      have hlt : i < bm.activeObjects.length := findObject_some_lt hfind
      have hidi : obj.IDNoGen = (bm.activeObjects.getD i zeroObject).IDNoGen :=
        objMatch_false_iff.mp (findObject_some_match hfind)
      have hother : ∀ x ∈ bm.activeObjects.eraseIdx i, x.IDNoGen ≠ obj.IDNoGen := by
        intro x hx heq
        exact not_mem_map_eraseIdx zeroObject hlt hnd x hx (heq.trans hidi)
      have htd : bm.activeObjects.eraseIdx i =
          bm.activeObjects.take i ++ bm.activeObjects.drop (i + 1) :=
        List.eraseIdx_eq_take_drop_succ _ _
      have hsplit : bm.activeObjects.set i obj =
          bm.activeObjects.take i ++ obj :: bm.activeObjects.drop (i + 1) := by
        rw [List.set_eq_take_append_cons_drop]
        simp [hlt]
      have htake0 : (bm.activeObjects.take i).countP
          (fun x => decide (x.IDNoGen = obj.IDNoGen)) = 0 := by
        refine List.countP_eq_zero.mpr ?_
        intro x hx
        simp only [decide_eq_true_eq]
        exact hother x (htd ▸ List.mem_append_left _ hx)
      have hdrop0 : (bm.activeObjects.drop (i + 1)).countP
          (fun x => decide (x.IDNoGen = obj.IDNoGen)) = 0 := by
        refine List.countP_eq_zero.mpr ?_
        intro x hx
        simp only [decide_eq_true_eq]
        exact hother x (htd ▸ List.mem_append_right _ hx)
      constructor
      · rw [hact, hsplit, List.countP_append, List.countP_cons, htake0, hdrop0]
        simp
      · intro x hx hxid
        rw [hact, hsplit] at hx
        rcases List.mem_append.mp hx with hmem | hmem
        · exact absurd hxid (hother x (htd ▸ List.mem_append_left _ hmem))
        · rcases List.mem_cons.mp hmem with heq | hmem2
          · exact heq
          · exact absurd hxid (hother x (htd ▸ List.mem_append_right _ hmem2))
    | none =>
      have hfind' : findObject (resolveGen clk obj) bm.activeObjects false = none := by
        rw [hres]; exact hfind
      have hact : (addObject clk bm obj).activeObjects =
          bm.activeObjects ++ [obj] := by
        rw [addObject_not_found hfind', hres]
      have hno : ∀ x ∈ bm.activeObjects, x.IDNoGen ≠ obj.IDNoGen := by
        intro x hx heq
        have := findObject_eq_none_iff.mp hfind x hx
        rw [show objMatch false obj x = decide (obj.IDNoGen = x.IDNoGen) from rfl] at this
        simp only [decide_eq_false_iff_not] at this
        exact this heq.symm
      have hcnt0 : bm.activeObjects.countP
          (fun x => decide (x.IDNoGen = obj.IDNoGen)) = 0 := by
        refine List.countP_eq_zero.mpr ?_
        intro x hx
        simp only [decide_eq_true_eq]
        exact hno x hx
      constructor
      · rw [hact, List.countP_append, hcnt0, List.countP_cons]
        simp
      · intro x hx hxid
        rw [hact] at hx
        rcases List.mem_append.mp hx with hmem | hmem
        · exact absurd hxid (hno x hmem)
        · exact List.mem_singleton.mp hmem

theorem claim_C1_witness :
    objX.Generation ≠ 0 ∧ clkD.rfc ≠ "" ∧
    ((bm10.activeObjects.map Object.IDNoGen).Nodup) ∧
    (((addObject clkD bm10 objX).activeObjects.countP
        (fun x => decide (x.IDNoGen = objX.IDNoGen)) = 1) ∧
      ∀ x ∈ (addObject clkD bm10 objX).activeObjects,
        x.IDNoGen = objX.IDNoGen → x = objX) :=
  ⟨by decide, by decide, by decide,
    (claim_C1 clkD bm10 objX (by decide) (by decide) (by decide)).2.2⟩

/-! C3 needs a characterization of a failed full-identity search. -/

theorem findObject_full_none_iff {b o : String} {g : Int} {l : List Object} :
    findObject ⟨b, o, g, "", ""⟩ l true = none ↔ ∀ x ∈ l, x.ID ≠ (b, o, g) := by
  rw [findObject_eq_none_iff]
  constructor
  · intro h x hx hid
    have := h x hx
    rw [show objMatch true ⟨b, o, g, "", ""⟩ x =
      decide (Object.ID ⟨b, o, g, "", ""⟩ = x.ID) from rfl] at this
    simp only [decide_eq_false_iff_not] at this
    exact this hid.symm
  · intro hall x hx
    rw [show objMatch true ⟨b, o, g, "", ""⟩ x =
      decide (Object.ID ⟨b, o, g, "", ""⟩ = x.ID) from rfl]
    simp only [decide_eq_false_iff_not]
    intro hpx
    exact hall x hx hpx.symm

/-- C3 (amended): `GetObjectWithGeneration` fails with bucket-level
`NotFound` when the bucket is absent; with generation 0 it searches the
active list by logical identity and fails with object-level `NotFound`
exactly when no active entry has that logical identity; with a non-zero
generation it searches active ++ archived by full identity, returning an
entry with that full identity and failing with object-level `NotFound`
exactly when none exists.  An archived version carrying generation `g` is
returned exactly when no active entry shares the full identity and it is
the archive's unique carrier of it (the claim's unconditional "returns
that exact archived object" fails when an active entry shadows the same
full identity; see the counterexample). -/
theorem claim_C3 :
    (∀ (s : StorageMemory) (b o : String) (g : Int),
      getBucketInMemory s b = none →
      GetObjectWithGeneration s b o g = .error (.bucketNotFound b)) ∧
    (∀ (s : StorageMemory) (b o : String) (bm : bucketInMemory),
      getBucketInMemory s b = some bm →
      (∀ r, GetObjectWithGeneration s b o 0 = .ok r →
        r ∈ bm.activeObjects ∧ r.IDNoGen = (b, o)) ∧
      (GetObjectWithGeneration s b o 0 = .error .objectNotFound ↔
        ∀ x ∈ bm.activeObjects, x.IDNoGen ≠ (b, o))) ∧
    (∀ (s : StorageMemory) (b o : String) (g : Int) (bm : bucketInMemory),
      g ≠ 0 → getBucketInMemory s b = some bm →
      (∀ r, GetObjectWithGeneration s b o g = .ok r →
        r ∈ bm.activeObjects ++ bm.archivedObjects ∧ r.ID = (b, o, g)) ∧
      (GetObjectWithGeneration s b o g = .error .objectNotFound ↔
        ∀ x ∈ bm.activeObjects ++ bm.archivedObjects, x.ID ≠ (b, o, g))) ∧
    (∀ (s : StorageMemory) (b o : String) (g : Int) (bm : bucketInMemory)
      (arch : Object),
      g ≠ 0 → getBucketInMemory s b = some bm →
      arch ∈ bm.archivedObjects → arch.ID = (b, o, g) →
      (∀ x ∈ bm.activeObjects, x.ID ≠ (b, o, g)) →
      (∀ x ∈ bm.archivedObjects, x.ID = (b, o, g) → x = arch) →
      GetObjectWithGeneration s b o g = .ok arch) := by
  refine ⟨?_, ?_, ?_, ?_⟩
  · intro s b o g hb
    exact GetObjectWithGeneration_absent hb
  · intro s b o bm hb
    constructor
    · intro r hr
      have hr' : GetObject s b o = .ok r := hr
      obtain ⟨bm2, i, hb2, hf, hgd, hmem, hid⟩ := GetObject_ok_spec hr'
      have hbm : bm2 = bm := Option.some.inj (hb2.symm.trans hb)
      subst hbm
      exact ⟨hmem, hid⟩
    · exact GetObject_objectNotFound_iff hb
  · intro s b o g bm hg hb
    rw [GetObjectWithGeneration_nonzero_eq hg hb]
    constructor
    · intro r hr
      cases hf : findObject ⟨b, o, g, "", ""⟩
          (bm.activeObjects ++ bm.archivedObjects) true with
      | none =>
        rw [hf] at hr
        cases hr
      | some i =>
        rw [hf] at hr
        have hlt := findObject_some_lt hf
        have hr' := Except.ok.inj hr
        have hmem : r ∈ bm.activeObjects ++ bm.archivedObjects := by
          rw [← hr', List.getD_eq_getElem _ _ hlt]
          exact List.getElem_mem hlt
        have hid : r.ID = (b, o, g) := by
          have := objMatch_true_iff.mp (findObject_some_match hf)
          rw [hr'] at this
          exact this.symm
        exact ⟨hmem, hid⟩
    · constructor
      · intro h
        cases hf : findObject ⟨b, o, g, "", ""⟩
            (bm.activeObjects ++ bm.archivedObjects) true with
        | none => exact findObject_full_none_iff.mp hf
        | some i =>
          rw [hf] at h
          cases h
      · intro hall
        rw [findObject_full_none_iff.mpr hall]
  · intro s b o g bm arch hg hb harch hid hactno huniq
    have hmem : arch ∈ bm.activeObjects ++ bm.archivedObjects :=
      List.mem_append_right _ harch
    have hmatch : objMatch true ⟨b, o, g, "", ""⟩ arch = true :=
      objMatch_true_iff.mpr hid.symm
    obtain ⟨i, hf⟩ := Option.isSome_iff_exists.mp
      (findObject_isSome_of_mem hmem hmatch)
    rw [GetObjectWithGeneration_nonzero_eq hg hb, hf]
    have hlt := findObject_some_lt hf
    have hrid : ((bm.activeObjects ++ bm.archivedObjects).getD i zeroObject).ID =
        (b, o, g) :=
      (objMatch_true_iff.mp (findObject_some_match hf)).symm
    have hrmem : (bm.activeObjects ++ bm.archivedObjects).getD i zeroObject ∈
        bm.activeObjects ++ bm.archivedObjects := by
      rw [List.getD_eq_getElem _ _ hlt]
      exact List.getElem_mem hlt
    have hreq : (bm.activeObjects ++ bm.archivedObjects).getD i zeroObject = arch := by
      rcases List.mem_append.mp hrmem with hmemact | hmemarch
      · exact absurd hrid (hactno _ hmemact)
      · exact huniq _ hmemarch hrid
    exact congrArg Except.ok hreq

/-- The claim's final sentence is false as stated: in `store10` the
archived version `objXArch` carries generation 7, yet the lookup returns
the active `objY`, a different object. -/
theorem claim_C3_counterexample :
    Reachable store10 ∧
    getBucketInMemory store10 "b" = some bm10 ∧
    objXArch ∈ bm10.archivedObjects ∧
    objXArch.ID = ("b", "o", 7) ∧
    GetObjectWithGeneration store10 "b" "o" 7 = .ok objY ∧
    objY ≠ objXArch :=
  ⟨⟨[], trace10, fun co hco => absurd hco (List.not_mem_nil co), by decide, rfl⟩,
    rfl, by decide, rfl, rfl, by decide⟩

theorem claim_C3_witness :
    (getBucketInMemory emptyStorage "b" = none ∧
      GetObjectWithGeneration emptyStorage "b" "o" 3 =
        .error (.bucketNotFound "b")) ∧
    (getBucketInMemory store10 "b" = some bm10 ∧
      GetObjectWithGeneration store10 "b" "o" 0 = .ok objY ∧
      objY ∈ bm10.activeObjects ∧ objY.IDNoGen = ("b", "o")) ∧
    (getBucketInMemory storeW "b" = some bmW ∧
      objXArch ∈ bmW.archivedObjects ∧ objXArch.ID = ("b", "o", 7) ∧
      GetObjectWithGeneration storeW "b" "o" 7 = .ok objXArch) :=
  ⟨⟨rfl, claim_C3.1 emptyStorage "b" "o" 3 rfl⟩,
    ⟨rfl, rfl, (claim_C3.2.1 store10 "b" "o" bm10 rfl).1 objY rfl⟩,
    ⟨rfl, by decide, rfl,
      claim_C3.2.2.2 storeW "b" "o" 7 bmW objXArch (by decide) rfl (by decide) rfl
        (by decide) (by decide)⟩⟩

/-- C4 (amended): with versioning enabled, `deleteObject` appends the
*argument* object with its deleted marker stamped to the archive (equal
to the stored entry stamped only when the argument is the stored entry)
and removes the first logical-identity match from the active list; at the
engine level, where `DeleteObject` passes the stored active entry, the
object becomes unreachable via `GetObject`, its stamped version appears
in `ListObjects` with versions, and `GetObjectWithGeneration` still
succeeds for its generation. -/
theorem claim_C4 :
    (∀ (clk : Clock) (bm : bucketInMemory) (obj : Object) (mg : Bool) (i : Nat),
      bm.VersioningEnabled = true →
      findObject obj bm.activeObjects mg = some i →
      ∃ bm' j, findObject obj bm.activeObjects false = some j ∧
        deleteObject clk bm obj mg = some bm' ∧
        bm'.archivedObjects = bm.archivedObjects ++ [stampDeleted clk obj] ∧
        bm'.activeObjects.Perm (bm.activeObjects.eraseIdx j)) ∧
    (∀ (clk : Clock) (s s' : StorageMemory) (b o : String) (bm : bucketInMemory)
      (obj : Object),
      Reachable s → ValidClock clk = true →
      getBucketInMemory s b = some bm → bm.VersioningEnabled = true →
      GetObject s b o = .ok obj →
      DeleteObject clk s b o = some (.ok s') →
      GetObject s' b o = .error .objectNotFound ∧
      (∃ l, ListObjects s' b true = .ok l ∧ stampDeleted clk obj ∈ l) ∧
      (∃ r, GetObjectWithGeneration s' b o obj.Generation = .ok r ∧
        r.ID = (b, o, obj.Generation))) := by
  constructor
  · intro clk bm obj mg i hv hfind
    obtain ⟨bm', j, hj, heq, hbkt, harch, hperm⟩ :=
      @deleteObject_found_versioned clk _ _ _ _ hv hfind
    exact ⟨bm', j, hj, heq, harch, hperm⟩
  · intro clk s s' b o bm obj hreach hc hb hv hobj hdel
    obtain ⟨hnd, hmark, hgact, hgarch, hvoff⟩ := reachable_storeInv hreach _ _ hb
    obtain ⟨bm2, i, hb2, hflog, hgd, hmem, hid⟩ := GetObject_ok_spec hobj
    have hbm : bm2 = bm := Option.some.inj (hb2.symm.trans hb)
    subst hbm
    have hg : obj.Generation ≠ 0 := hgact obj hmem
    obtain ⟨i2, hfull⟩ := Option.isSome_iff_exists.mp
      (findObject_isSome_of_mem hmem (@objMatch_self true _))
    obtain ⟨bm', j, hjlog, heq, hbkt, harch, hperm⟩ :=
      @deleteObject_found_versioned clk _ _ _ _ hv hfull
    rw [DeleteObject_eq hobj hb, heq] at hdel
    have hs' : s' = setBucket s b bm' := (Except.ok.inj (Option.some.inj hdel)).symm
    subst hs'
    have hlook : getBucketInMemory (setBucket s b bm') b = some bm' :=
      getBucket_setBucket_self
    have hjlt := findObject_some_lt hjlog
    have hm := objMatch_false_iff.mp (findObject_some_match hjlog)
    have hjid := hm.symm.trans hid
    have hnone : ∀ x ∈ bm'.activeObjects, x.IDNoGen ≠ (b, o) := by
      intro x hx heq2
      exact not_mem_map_eraseIdx zeroObject hjlt hnd x (hperm.subset hx)
        (heq2.trans hjid.symm)
    have hbn : obj.BucketName = b := congrArg Prod.fst hid
    have hon : obj.Name = o := congrArg Prod.snd hid
    have hmemc : stampDeleted clk obj ∈ bm'.activeObjects ++ bm'.archivedObjects := by
      rw [harch]
      exact List.mem_append_right _
        (List.mem_append_right _ (List.mem_singleton.mpr rfl))
    refine ⟨(GetObject_objectNotFound_iff hlook).mpr hnone, ?_, ?_⟩
    · exact ⟨bm'.activeObjects ++ bm'.archivedObjects, by simp [ListObjects, hlook],
        hmemc⟩
    · have hstampid : (stampDeleted clk obj).ID = (b, o, obj.Generation) := by
        simp [stampDeleted, Object.ID, hbn, hon]
      have hmatch : objMatch true ⟨b, o, obj.Generation, "", ""⟩
          (stampDeleted clk obj) = true :=
        objMatch_true_iff.mpr hstampid.symm
      obtain ⟨idx, hfidx⟩ := Option.isSome_iff_exists.mp
        (findObject_isSome_of_mem hmemc hmatch)
      refine ⟨(bm'.activeObjects ++ bm'.archivedObjects).getD idx zeroObject, ?_, ?_⟩
      · rw [GetObjectWithGeneration_nonzero_eq hg hlook, hfidx]
      · exact (objMatch_true_iff.mp (findObject_some_match hfidx)).symm

/-- The claim as stated is false at the bucket level: deleting with an
argument that shares only the logical identity of the stored entry
archives the stamped *argument* (generation 7, payload "z"), not the
stamped stored entry (generation 5, payload "x"). -/
theorem claim_C4_counterexample :
    c4Bm.VersioningEnabled = true ∧
    c4Bm.activeObjects = [c4Stored] ∧
    findObject c4Arg c4Bm.activeObjects false = some 0 ∧
    deleteObject clkA c4Bm c4Arg false =
      some ⟨c4Bm.bucket, [], [stampDeleted clkA c4Arg]⟩ ∧
    stampDeleted clkA c4Arg ≠ stampDeleted clkA c4Stored :=
  ⟨rfl, rfl, by decide, by decide, by decide⟩

theorem claim_C4_witness :
    Reachable store10 ∧ ValidClock clkD = true ∧
    getBucketInMemory store10 "b" = some bm10 ∧
    bm10.VersioningEnabled = true ∧
    GetObject store10 "b" "o" = .ok objY ∧
    DeleteObject clkD store10 "b" "o" = some (.ok store4) ∧
    (GetObject store4 "b" "o" = .error .objectNotFound ∧
      (∃ l, ListObjects store4 "b" true = .ok l ∧ stampDeleted clkD objY ∈ l) ∧
      (∃ r, GetObjectWithGeneration store4 "b" "o" objY.Generation = .ok r ∧
        r.ID = ("b", "o", objY.Generation))) :=
  have hreach : Reachable store10 :=
    ⟨[], trace10, fun co hco => absurd hco (List.not_mem_nil co), by decide, rfl⟩
  ⟨hreach, by decide, rfl, rfl, rfl, rfl,
    claim_C4.2 clkD store10 store4 "b" "o" bm10 objY hreach (by decide) rfl rfl
      rfl rfl⟩

/-- C5: `deleteObject` with no matching active entry leaves the bucket
unchanged and signals no error; with a match and versioning disabled it
permanently removes the first logical-identity match, leaving the archive
unchanged, so at the engine level the object is gone from `GetObject` and
from `ListObjects` with versions. -/
theorem claim_C5 :
    (∀ (clk : Clock) (bm : bucketInMemory) (obj : Object) (mg : Bool),
      findObject obj bm.activeObjects mg = none →
      deleteObject clk bm obj mg = some bm) ∧
    (∀ (clk : Clock) (bm : bucketInMemory) (obj : Object) (mg : Bool) (i : Nat),
      bm.VersioningEnabled = false →
      findObject obj bm.activeObjects mg = some i →
      ∃ bm' j, findObject obj bm.activeObjects false = some j ∧
        deleteObject clk bm obj mg = some bm' ∧
        bm'.archivedObjects = bm.archivedObjects ∧
        bm'.activeObjects.Perm (bm.activeObjects.eraseIdx j)) ∧
    (∀ (clk : Clock) (s s' : StorageMemory) (b o : String) (bm : bucketInMemory),
      Reachable s →
      getBucketInMemory s b = some bm → bm.VersioningEnabled = false →
      DeleteObject clk s b o = some (.ok s') →
      GetObject s' b o = .error .objectNotFound ∧
      (∃ l, ListObjects s' b true = .ok l ∧ ∀ x ∈ l, x.IDNoGen ≠ (b, o))) := by
  refine ⟨?_, ?_, ?_⟩
  · intro clk bm obj mg h
    exact deleteObject_no_match h
  · intro clk bm obj mg i hv hfind
    obtain ⟨bm', j, hj, heq, hbkt, harch, hperm⟩ :=
      @deleteObject_found_unversioned clk _ _ _ _ hv hfind
    exact ⟨bm', j, hj, heq, harch, hperm⟩
  · intro clk s s' b o bm hreach hb hv hdel
    obtain ⟨hnd, hmark, hgact, hgarch, hvoff⟩ := reachable_storeInv hreach _ _ hb
    cases hobj : GetObject s b o with
    | error e =>
      rw [show DeleteObject clk s b o = some (.error e) by
        simp [DeleteObject, hobj]] at hdel
      cases Option.some.inj hdel
    | ok obj =>
      obtain ⟨bm2, i, hb2, hflog, hgd, hmem, hid⟩ := GetObject_ok_spec hobj
      have hbm : bm2 = bm := Option.some.inj (hb2.symm.trans hb)
      subst hbm
      obtain ⟨i2, hfull⟩ := Option.isSome_iff_exists.mp
        (findObject_isSome_of_mem hmem (@objMatch_self true _))
      obtain ⟨bm', j, hjlog, heq, hbkt, harch, hperm⟩ :=
        @deleteObject_found_unversioned clk _ _ _ _ hv hfull
      rw [DeleteObject_eq hobj hb, heq] at hdel
      have hs' : s' = setBucket s b bm' := (Except.ok.inj (Option.some.inj hdel)).symm
      subst hs'
      have hlook : getBucketInMemory (setBucket s b bm') b = some bm' :=
        getBucket_setBucket_self
      have hjlt := findObject_some_lt hjlog
      have hm := objMatch_false_iff.mp (findObject_some_match hjlog)
      have hjid := hm.symm.trans hid
      have hnone : ∀ x ∈ bm'.activeObjects, x.IDNoGen ≠ (b, o) := by
        intro x hx heq2
        exact not_mem_map_eraseIdx zeroObject hjlt hnd x (hperm.subset hx)
          (heq2.trans hjid.symm)
      refine ⟨(GetObject_objectNotFound_iff hlook).mpr hnone,
        bm'.activeObjects ++ bm'.archivedObjects, by simp [ListObjects, hlook], ?_⟩
      intro x hx
      rcases List.mem_append.mp hx with hmemact | hmemarch
      · exact hnone x hmemact
      · rw [harch, hvoff hv] at hmemarch
        cases hmemarch

theorem claim_C5_witness :
    (findObject ⟨"b", "nope", 1, "", ""⟩ bm5.activeObjects false = none ∧
      deleteObject clkC bm5 ⟨"b", "nope", 1, "", ""⟩ false = some bm5) ∧
    (bm5.VersioningEnabled = false ∧
      findObject objX bm5.activeObjects true = some 0 ∧
      (∃ bm' j, findObject objX bm5.activeObjects false = some j ∧
        deleteObject clkC bm5 objX true = some bm' ∧
        bm'.archivedObjects = bm5.archivedObjects ∧
        bm'.activeObjects.Perm (bm5.activeObjects.eraseIdx j))) ∧
    (Reachable store5 ∧ getBucketInMemory store5 "b" = some bm5 ∧
      DeleteObject clkC store5 "b" "o" = some (.ok store5del) ∧
      (GetObject store5del "b" "o" = .error .objectNotFound ∧
        (∃ l, ListObjects store5del "b" true = .ok l ∧
          ∀ x ∈ l, x.IDNoGen ≠ ("b", "o")))) :=
  have hreach : Reachable store5 :=
    ⟨[], trace5, fun co hco => absurd hco (List.not_mem_nil co), by decide, rfl⟩
  ⟨⟨by decide, claim_C5.1 clkC bm5 ⟨"b", "nope", 1, "", ""⟩ false (by decide)⟩,
    ⟨rfl, by decide, claim_C5.2.1 clkC bm5 objX true 0 rfl (by decide)⟩,
    ⟨hreach, rfl, rfl,
      claim_C5.2.2 clkC store5 store5del "b" "o" bm5 hreach rfl rfl rfl⟩⟩

end Backend
